import Mathlib

/-!
Verification development for the bitrise-remote-access-cli repository.

The Go sources are shallowly embedded as pure Lean functions.  Strings are
modelled as `String` or `List Char`; external effects (DNS resolution, the
SSH transport, the remote shell, the local and remote filesystems) are
modelled as explicit oracle parameters and event traces.
-/

/-! ## Go string primitives (package strings), over `List Char` -/

/-- Go `strings.Index`: index of the first occurrence of `pat` in `s`
(`none` when absent; `some 0` for the empty pattern). -/
def strIndex? : List Char → List Char → Option Nat
  | s, pat =>
    if pat.isPrefixOf s then some 0
    else
      match s with
      | [] => none
      | _ :: t => (strIndex? t pat).map (fun n => n + 1)

/-- Go `strings.LastIndex`: index of the last occurrence of `pat` in `s`. -/
def strLastIndex? : List Char → List Char → Option Nat
  | s, pat =>
    match s with
    | [] => if pat = [] then some 0 else none
    | c :: t =>
      match strLastIndex? t pat with
      | some i => some (i + 1)
      | none => if pat.isPrefixOf (c :: t) then some 0 else none

/-- Go `strings.Contains`. -/
def containsSub (s pat : List Char) : Bool :=
  (strIndex? s pat).isSome

/-- Go `strings.Contains` over `String` arguments. -/
def goContains (s pat : String) : Bool :=
  containsSub s.data pat.data

/-- Go `strings.ReplaceAll` (non-overlapping, left to right).  The sources
only call it with non-empty keys, so the empty-key case degenerates to the
identity here. -/
def replaceAll : List Char → List Char → List Char → List Char
  | s, k, v =>
    if h : k ≠ [] ∧ k.isPrefixOf s then
      v ++ replaceAll (s.drop k.length) k v
    else
      match s with
      | [] => []
      | c :: t => c :: replaceAll t k v
  termination_by s _ _ => s.length
  decreasing_by
    · simp only [List.length_drop]
      have hk : 0 < k.length := List.length_pos.mpr h.1
      have hs : k.length ≤ s.length :=
        (List.isPrefixOf_iff_prefix.mp h.2).length_le
      omega
    · simp

/-- First-match association lookup (Go map reads are modelled with this;
keys are written at most once per path in the models below). -/
def lookupA {α : Type} : List (String × α) → String → Option α
  | [], _ => none
  | (q, v) :: t, k => if q = k then some v else lookupA t k

/-- Go map read with the zero-value default `""`. -/
def lookupD (m : List (String × String)) (k : String) : String :=
  (lookupA m k).getD ""

/-- Go map write (overwrite semantics). -/
def mapSet : List (List Char × List Char) → List Char → List Char → List (List Char × List Char)
  | [], k, v => [(k, v)]
  | (q, w) :: t, k, v => if q = k then (k, v) :: t else (q, w) :: mapSet t k v

/-- Go map read over `List Char` keys. -/
def mapGet : List (List Char × List Char) → List Char → Option (List Char)
  | [], _ => none
  | (q, w) :: t, k => if q = k then some w else mapGet t k

/-- Go `filepath.Join` of two components, as used by the sources
(path cleaning beyond the empty-first-component case does not arise). -/
def joinPath (a b : String) : String :=
  if a = "" then b else a ++ "/" ++ b

/-- Digit run parser used by the `strconv.Atoi` model. -/
def digitsVal? (ds : List Char) : Option Nat :=
  match ds with
  | [] => none
  | _ =>
    ds.foldl
      (fun acc c =>
        match acc with
        | none => none
        | some n => if c.isDigit then some (n * 10 + (c.toNat - '0'.toNat)) else none)
      (some 0)

/-- Go `strconv.Atoi`: optional sign followed by a non-empty digit run.
Values outside the machine range make Go return an error together with a
clamped value; since every caller here also rejects anything above 65535,
modelling the parse exactly over `Int` gives the same accept/reject
behaviour. -/
def goAtoi (s : String) : Option Int :=
  match s.data with
  | '+' :: ds => (digitsVal? ds).map (fun n => (n : Int))
  | '-' :: ds => (digitsVal? ds).map (fun n => -(n : Int))
  | ds => (digitsVal? ds).map (fun n => (n : Int))

/-! ## Connection parameter validator (ssh.go `CreateClientConfig`,
identical to part_004 `createClientConfig`) -/

/-- `BitriseHostPattern`: the constant managed host alias. -/
def BitriseHostPattern : String := "BitriseRunningVM"

def sshKeyName : String := "id_bitrise_remote_access"

def remoteReadmeFileName : String := "README_REMOTE_ACCESS.md"

def sourceDirEnvVar : String := "BITRISE_SOURCE_DIR"

def revisionEnvVar : String := "BITRISE_OSX_STACK_REV_ID"

def revisionEnvVarUbuntu : String := "BITRISE_STACK_REV_ID"

def osTypeEnvVar : String := "OSTYPE"

/-- The `configEntry` struct of the ssh package. -/
structure configEntry where
  Host : String
  HostName : String
  User : String
  Port : String
  Password : Option String
  deriving DecidableEq

/-- `createClientConfig` / exported `CreateClientConfig`.  The two external
checks `net.ParseIP(host) != nil` and `net.LookupHost(host)` succeeding are
passed in as the oracles `ipLit` and `resolvesHost`. -/
def createClientConfig (ipLit resolvesHost : String → Bool)
    (host port user : String) (password : Option String) : Except String configEntry :=
  if host = "" then Except.error "host cannot be empty"
  else if port = "" then Except.error "port cannot be empty"
  else if user = "" then Except.error "user cannot be empty"
  else if ipLit host = false ∧ resolvesHost host = false then
    Except.error ("invalid host: " ++ host)
  else
    match goAtoi port with
    | none => Except.error ("invalid port: " ++ port)
    | some p =>
      if p ≤ 0 ∨ 65535 < p then Except.error ("invalid port: " ++ port)
      else Except.ok
        { Host := BitriseHostPattern, HostName := host, User := user,
          Port := port, Password := password }

/-! ## OS detection (part_004 `isMacOS` / `isLinux`) -/

def isMacOS (osType : String) : Bool :=
  goContains osType "darwin"

def isLinux (osType : String) : Bool :=
  goContains osType "linux-gnu"

/-! ## Remote environment bootstrapper (part_004) -/

/-- Observable effects of the bootstrap, in invocation order.  The two
checkpoints `remoteDetected` / `essentialsDone` model the callbacks
`onRemoteDetected` / `onEssentialsDone`; provisioning helpers are recorded
as single events for their call (their internal errors are swallowed by the
caller and do not change control flow). -/
inductive Ev where
  | removeHostKey : Ev
  | dial : String → String → Ev
  | detectEnv : Ev
  | remoteDetected : Bool → Ev
  | ensureKey : Ev
  | shellConfigs : List String → Ev
  | essentialsDone : Bool → String → Ev
  | copySFTP : String → Ev
  | copySSH : String → Ev
  deriving DecidableEq

inductive SetupErr where
  | removeHostKeyFailed : SetupErr
  | connectFailed : SetupErr
  | detectFailed : SetupErr
  | ensureKeyFailed : SetupErr
  deriving DecidableEq

/-- Oracle for the effects the bootstrap performs: success of the local
`ssh-keygen -R` run, of the TCP dial, of the pty environment-detection
batch, of the key provisioning step (fatal only in the synchronous
variant), and the remote environment variables the detection returns. -/
structure RemoteWorld where
  removeHostKeyOk : Bool
  dialOk : Bool
  envOk : Bool
  ensureKeyOk : Bool
  env : List (String × String)

/-- `setupRemoteConfig` of part_004 (the canonical, two-checkpoint
bootstrap), returning the event trace plus the error result.  The README
item's target path is computed from the *detected* source directory before
the Linux default is applied, exactly as in the source. -/
def setupRemoteConfig (w : RemoteWorld) (c : configEntry) : List Ev × Option SetupErr :=
  if w.removeHostKeyOk = false then
    ([Ev.removeHostKey], some SetupErr.removeHostKeyFailed)
  else
    match c.Password with
    | none => ([Ev.removeHostKey], none)
    | some pw =>
      if w.dialOk = false then
        ([Ev.removeHostKey, Ev.dial c.User pw], some SetupErr.connectFailed)
      else if w.envOk = false then
        ([Ev.removeHostKey, Ev.dial c.User pw, Ev.detectEnv], some SetupErr.detectFailed)
      else
        let sourceDir := lookupD w.env sourceDirEnvVar
        let osType := lookupD w.env osTypeEnvVar
        let readmePath := joinPath sourceDir remoteReadmeFileName
        if isMacOS osType then
          ([Ev.removeHostKey, Ev.dial c.User pw, Ev.detectEnv,
            Ev.remoteDetected true, Ev.ensureKey,
            Ev.shellConfigs ["~/.zshrc", "~/.bashrc"],
            Ev.essentialsDone true sourceDir,
            Ev.copySFTP readmePath], none)
        else if isLinux osType then
          let sd := if sourceDir = "" then "/bitrise/src" else sourceDir
          ([Ev.removeHostKey, Ev.dial c.User pw, Ev.detectEnv,
            Ev.remoteDetected false,
            Ev.essentialsDone false sd,
            Ev.copySSH readmePath], none)
        else
          ([Ev.removeHostKey, Ev.dial c.User pw, Ev.detectEnv,
            Ev.remoteDetected false,
            Ev.essentialsDone false sourceDir], none)

/-- `SetupRemoteConfig` of ssh.go (the synchronous variant returning the
outcome as a tuple).  Its `getRemoteEnvVars` never returns a non-nil
error, so no detection-failure branch exists; the key provisioning failure
is fatal on the macOS path; the Linux/unknown path overwrites the source
directory unconditionally. -/
def SetupRemoteConfig (w : RemoteWorld) (c : configEntry) :
    List Ev × (Bool × String) × Option SetupErr :=
  if w.removeHostKeyOk = false then
    ([Ev.removeHostKey], (false, ""), some SetupErr.removeHostKeyFailed)
  else
    match c.Password with
    | none => ([Ev.removeHostKey], (false, ""), none)
    | some pw =>
      if w.dialOk = false then
        ([Ev.removeHostKey, Ev.dial c.User pw], (false, ""), some SetupErr.connectFailed)
      else
        let sourceDir := lookupD w.env sourceDirEnvVar
        let readmePath := joinPath sourceDir remoteReadmeFileName
        if isMacOS (lookupD w.env osTypeEnvVar) then
          if w.ensureKeyOk = false then
            ([Ev.removeHostKey, Ev.dial c.User pw, Ev.detectEnv, Ev.ensureKey],
             (true, sourceDir), some SetupErr.ensureKeyFailed)
          else
            ([Ev.removeHostKey, Ev.dial c.User pw, Ev.detectEnv, Ev.ensureKey,
              Ev.copySFTP readmePath,
              Ev.shellConfigs ["~/.zshrc", "~/.bashrc"]],
             (true, sourceDir), none)
        else
          ([Ev.removeHostKey, Ev.dial c.User pw, Ev.detectEnv],
           (false, "/bitrise/src"), none)

/-- Recognizes the `ensureClientKeyOnRemote` call event. -/
def isEnsureKeyEv : Ev → Bool
  | Ev.ensureKey => true
  | _ => false

/-- Recognizes the `setupShellConfigs` call event. -/
def isShellCfgEv : Ev → Bool
  | Ev.shellConfigs _ => true
  | _ => false

/-- Recognizes the `onEssentialsDone` checkpoint event. -/
def isEssentialsEv : Ev → Bool
  | Ev.essentialsDone _ _ => true
  | _ => false

/-- Recognizes the `onRemoteDetected` checkpoint event. -/
def isRemoteDetectedEv : Ev → Bool
  | Ev.remoteDetected _ => true
  | _ => false

/-- Recognizes the macOS-path README copy (`copyItemSFTP`). -/
def isCopySFTPEv : Ev → Bool
  | Ev.copySFTP _ => true
  | _ => false

/-- Recognizes either checkpoint callback. -/
def isCheckpointEv : Ev → Bool
  | Ev.remoteDetected _ => true
  | Ev.essentialsDone _ _ => true
  | _ => false

/-- Recognizes a dial attempt. -/
def isDialEv : Ev → Bool
  | Ev.dial _ _ => true
  | _ => false

/-! ## Remote command runner (run_with_pty.go `runWithPty`) -/

/-- The per-index frame marker `fmt.Sprintf("[result%d=", i)`. -/
def resultTag (i : Nat) : List Char :=
  "[result".data ++ (toString i).data ++ ['=']

/-- The per-command formatting of `runWithPty` (result-wanting mode wraps
the command in the awk framing pipe, each command is `\r`-terminated). -/
def formatCommand (cmd : List Char) (i : Nat) (getResults : Bool) : List Char :=
  if getResults then
    cmd ++ " | awk \x27\x7bprint \"[result".data ++ (toString i).data
        ++ "=\"$0\"]\"\x7d\x27\r".data
  else
    cmd ++ ['\r']

/-- The joined input stream `runWithPty` builds: the command prefix before
each formatted command. -/
def jointCommands (cmds : List (List Char)) (cmdPre : List Char) (getResults : Bool) :
    List Char :=
  (cmds.enum.map (fun p => cmdPre ++ formatCommand p.2 p.1 getResults)).join

/-- What `runWithPty` actually writes to the remote shell's stdin:
the joined commands followed by `exit\r`. -/
def sentInput (cmds : List (List Char)) (cmdPre : List Char) (getResults : Bool) :
    List Char :=
  jointCommands cmds cmdPre getResults ++ "exit\r".data

/-- Frame extraction for index `i` (runWithPty lines 79-89): the last
occurrence of the frame marker, then the characters up to the next `]`. -/
def extractResult (output : List Char) (i : Nat) : Option (List Char) :=
  match strLastIndex? output (resultTag i) with
  | none => none
  | some s0 =>
    let s1 := s0 + (resultTag i).length
    match strIndex? (output.drop s1) [']'] with
    | none => none
    | some e => some ((output.drop s1).take e)

/-- The result map `runWithPty` builds (keyed by the command text; an entry
is only written when both the marker and the closing bracket are found). -/
def buildResultMap (output : List Char) (cmds : List (List Char)) :
    List (List Char × List Char) :=
  cmds.enum.foldl
    (fun m p =>
      match extractResult output p.1 with
      | some v => mapSet m p.2 v
      | none => m)
    []

/-- The two commands of the specification's concrete scenario. -/
def cmdEchoA : List Char := "echo A".data

def cmdEchoB : List Char := "echo B".data

/-- A faithful combined-stdout transcript for the concrete scenario: the
pty echoes the sent input (which itself contains the literal frame-marker
text inside the awk program — an earlier, partial match) followed by the
two framed outputs produced by awk. -/
def concreteOutput : List Char :=
  sentInput [cmdEchoA, cmdEchoB] [] true
    ++ "\r\n[result0=A]\r\n[result1=B]\r\n".data

/-! ## Remote file writer (remote_file_operations.go) -/

/-- The `copyItem` struct. -/
structure copyItem where
  Content : List Char
  RemotePath : String
  Replace : Option (List (String × String))
  Append : Bool
  NoDuplicate : Bool

/-- The distinguished error conditions of the remote file writer.
`remoteFileExists` models the sentinel `ErrRemoteFileExists`;
`contentAlreadyPresent` models the "remote file already contains the
content" error. -/
inductive CopyErr where
  | remoteFileExists : CopyErr
  | contentAlreadyPresent : CopyErr
  deriving DecidableEq

/-- The remote filesystem, path to file content (first match wins; writes
shadow). -/
abbrev RemoteFS : Type := List (String × List Char)

/-- Content lookup on the modelled remote filesystem. -/
def fsGet (fs : RemoteFS) (p : String) : Option (List Char) :=
  lookupA fs p

/-- Write (create/overwrite) on the modelled remote filesystem. -/
def fsSet (fs : RemoteFS) (p : String) (c : List Char) : RemoteFS :=
  (p, c) :: fs

/-- `fileExistsSFTP` (lines 25-54): stat the path; on existence, fail with
the sentinel unless appending, and when appending with `NoDuplicate` fail
when the raw (unsubstituted) content is already a substring of the file.
Transport-level stat/open/read failures are outside this model. -/
def fileExistsSFTP (fs : RemoteFS) (item : copyItem) : Bool × Option CopyErr :=
  match fsGet fs item.RemotePath with
  | some fileContent =>
    if item.Append = false then (true, some CopyErr.remoteFileExists)
    else if item.NoDuplicate && containsSub fileContent item.Content then
      (true, some CopyErr.contentAlreadyPresent)
    else (true, none)
  | none => (false, none)

/-- Placeholder substitution applied to the content just before writing. -/
def substContent (item : copyItem) : List Char :=
  match item.Replace with
  | none => item.Content
  | some m => m.foldl (fun acc p => replaceAll acc p.1.data p.2.data) item.Content

/-- `copyItemSFTP` (lines 56-99): existence/duplication check, then append
or create with the substituted content.  Returns the error (if any) and the
resulting remote filesystem; every error path precedes the write, so the
filesystem is returned unchanged there. -/
def copyItemSFTP (fs : RemoteFS) (item : copyItem) : Option CopyErr × RemoteFS :=
  match fileExistsSFTP fs item with
  | (_, some e) => (some e, fs)
  | (ex, none) =>
    let content := substContent item
    if ex && item.Append then
      (none, fsSet fs item.RemotePath ((fsGet fs item.RemotePath).getD [] ++ content))
    else
      (none, fsSet fs item.RemotePath content)

/-! ## Local SSH config editor (part_004 / ssh.go, identical) -/

/-- `bitriseConfigPath()` relative to the home directory. -/
def bitriseConfigPath (home : List Char) : List Char :=
  home ++ "/.bitrise/remote-access/ssh_config".data

/-- The include line `fmt.Sprintf("Include %s", bitriseConfigPath())`. -/
def includeLine (home : List Char) : List Char :=
  "Include ".data ++ bitriseConfigPath home

/-- The comment prepended together with the include line. -/
def bitriseDescription : List Char :=
  "# Added by Bitrise\n# This will be added again if you remove it.".data

/-- Split on newline characters (every input produces at least one
segment). -/
def splitNl : List Char → List (List Char)
  | [] => [[]]
  | c :: rest =>
    if c = '\n' then [] :: splitNl rest
    else
      match splitNl rest with
      | t :: ts => (c :: t) :: ts
      | [] => [[c]]

/-- `bufio.ScanLines` drops one trailing carriage return per token. -/
def dropCR (t : List Char) : List Char :=
  if t.getLast? = some '\r' then t.dropLast else t

/-- The token sequence a `bufio.Scanner` with the default line splitter
produces: newline-separated segments, without a final empty segment for a
trailing newline, each with one trailing `\r` removed. -/
def scanLines (s : List Char) : List (List Char) :=
  if s = [] then []
  else
    (if s.getLast? = some '\n' then (splitNl s).dropLast else splitNl s).map dropCR

/-- Newline join (`strings.Join(lines, "\n")`). -/
def joinNl : List (List Char) → List Char
  | [] => []
  | [t] => t
  | t :: ts => t ++ '\n' :: joinNl ts

/-- `ensureBitriseClientConfigIncluded` (lines 115-151), as a transformer
of the primary SSH config file state (`none` = file absent).  Missing file:
create it holding only the include line.  Existing file: no-op when some
scanned line equals the include line, otherwise rewrite in full with the
description comment and the include line prepended. -/
def ensureBitriseClientConfigIncluded (home : List Char) (file : Option (List Char)) :
    List Char :=
  match file with
  | none => includeLine home ++ ['\n']
  | some content =>
    let lines := scanLines content
    if includeLine home ∈ lines then content
    else joinNl ([bitriseDescription, includeLine home] ++ lines) ++ ['\n']

/-! ## Managed host entry writer (part_004 `makeSSHConfigHost` /
`writeSSHClientConfig`) -/

/-- The node list `makeSSHConfigHost` builds (part_004 lines 207-260):
`IdentitiesOnly yes` is appended unconditionally; the identity file is
added only with `useIdentityOnly`, otherwise a preferred-authentications
hint is added. -/
def makeSSHConfigHost (config : configEntry) (useIdentityOnly : Bool) :
    List (String × String) :=
  [("  HostName", config.HostName),
   ("  User", config.User),
   ("  Port", config.Port),
   ("  StrictHostKeyChecking", "no"),
   ("  CheckHostIP", "no"),
   ("  IdentitiesOnly", "yes")]
  ++ (if useIdentityOnly then
        [("  IdentityFile", "~/.ssh/" ++ sshKeyName)]
      else
        [("  PreferredAuthentications", "password")])

/-- A rendered host block: the pattern (the managed alias plus the
deliberate trailing space), the EOL comment, and the key/value nodes. -/
structure SSHHostBlock where
  pattern : String
  comment : String
  nodes : List (String × String)
  deriving DecidableEq

/-- The block `makeSSHConfigHost` returns. -/
def makeSSHConfigHostBlock (config : configEntry) (useIdentityOnly : Bool) :
    SSHHostBlock :=
  { pattern := config.Host ++ " ",
    comment := "Bitrise CI VM",
    nodes := makeSSHConfigHost config useIdentityOnly }

/-- `writeSSHClientConfig` (part_004 lines 153-174): the managed config
file is opened with `O_TRUNC` and rewritten with exactly the one generated
block — the prior file content is ignored. -/
def writeSSHClientConfig (priorFile : Option (List SSHHostBlock))
    (config : configEntry) (useIdentityKey : Bool) : List SSHHostBlock :=
  [makeSSHConfigHostBlock config useIdentityKey]

/-! ## Helper lemmas -/

theorem strIndex?_isSome_of_prefix_drop (pat : List Char) :
    ∀ (i : Nat) (s : List Char), pat.isPrefixOf (s.drop i) = true →
      (strIndex? s pat).isSome = true := by
  intro i
  induction i with
  | zero =>
    intro s h
    rw [List.drop_zero] at h
    rw [strIndex?.eq_def]
    simp [h]
  | succ j ih =>
    intro s h
    match s with
    | [] =>
      rw [List.drop_nil] at h
      rw [strIndex?.eq_def]
      simp_all
    | c :: t =>
      rw [List.drop_succ_cons] at h
      rw [strIndex?.eq_def]
      by_cases hp : pat.isPrefixOf (c :: t)
      · simp [hp]
      · simp only [hp, if_false]
        have := ih t h
        cases hx : strIndex? t pat with
        | none => rw [hx] at this; simp at this
        | some n => simp

theorem containsSub_append_self (a b : List Char) : containsSub (a ++ b) b = true := by
  unfold containsSub
  apply strIndex?_isSome_of_prefix_drop b a.length
  rw [List.drop_left]
  exact List.isPrefixOf_iff_prefix.mpr (List.prefix_refl b)

theorem containsSub_self (b : List Char) : containsSub b b = true := by
  have := containsSub_append_self [] b
  simpa using this

theorem strIndex?_char_notMem (c : Char) :
    ∀ (val post : List Char), c ∉ val →
      strIndex? (val ++ c :: post) [c] = some val.length := by
  intro val
  induction val with
  | nil =>
    intro post _
    rw [strIndex?.eq_def]
    simp [List.isPrefixOf_cons₂_self, List.isPrefixOf]
  | cons a t ih =>
    intro post h
    have hac : c ≠ a := by
      intro hca
      exact h (by simp [hca])
    have ht : c ∉ t := fun hm => h (List.mem_cons_of_mem a hm)
    rw [strIndex?.eq_def]
    have hpre : ([c].isPrefixOf (a :: (t ++ c :: post))) = false := by
      rw [List.isPrefixOf_cons₂]
      simp [hac]
    simp only [List.cons_append, hpre, if_false]
    rw [ih post ht]
    simp

theorem splitNl_ne_nil (s : List Char) : splitNl s ≠ [] := by
  induction s with
  | nil => simp [splitNl]
  | cons c t ih =>
    rw [splitNl]
    by_cases h : c = '\n'
    · simp [h]
    · cases hx : splitNl t with
      | nil => exact absurd hx ih
      | cons u us => simp [h]

theorem splitNl_no_newline (s : List Char) : ∀ t ∈ splitNl s, '\n' ∉ t := by
  induction s with
  | nil => simp [splitNl]
  | cons c r ih =>
    rw [splitNl]
    by_cases h : c = '\n'
    · simp only [h, if_pos rfl]
      intro t ht
      rcases List.mem_cons.mp ht with h1 | h1
      · subst h1; simp
      · exact ih t h1
    · simp only [h, if_neg h]
      cases hx : splitNl r with
      | nil => exact absurd hx (splitNl_ne_nil _)
      | cons u us =>
        intro t ht
        rcases List.mem_cons.mp ht with h1 | h1
        · subst h1
          intro hmem
          rcases List.mem_cons.mp hmem with h2 | h2
          · exact h h2.symm
          · exact ih u (hx ▸ List.mem_cons_self u us) h2
        · exact ih t (hx ▸ List.mem_cons_of_mem u h1)

theorem splitNl_chars_subset (s : List Char) : ∀ t ∈ splitNl s, ∀ c ∈ t, c ∈ s := by
  induction s with
  | nil => simp [splitNl]
  | cons c r ih =>
    rw [splitNl]
    by_cases h : c = '\n'
    · simp only [h, if_pos rfl]
      intro t ht x hx
      rcases List.mem_cons.mp ht with h1 | h1
      · subst h1; simp at hx
      · exact List.mem_cons_of_mem _ (ih t h1 x hx)
    · simp only [if_neg h]
      cases hx : splitNl r with
      | nil => exact absurd hx (splitNl_ne_nil _)
      | cons u us =>
        intro t ht x hxt
        rcases List.mem_cons.mp ht with h1 | h1
        · subst h1
          rcases List.mem_cons.mp hxt with h2 | h2
          · simp [h2]
          · exact List.mem_cons_of_mem _ (ih u (hx ▸ List.mem_cons_self u us) x h2)
        · exact List.mem_cons_of_mem _ (ih t (hx ▸ List.mem_cons_of_mem u h1) x hxt)

theorem splitNl_append_cons (t r : List Char) (h : '\n' ∉ t) :
    splitNl (t ++ '\n' :: r) = t :: splitNl r := by
  induction t with
  | nil => simp [splitNl]
  | cons c q ih =>
    have hc : c ≠ '\n' := fun hc => h (by simp [hc])
    have hq : '\n' ∉ q := fun hm => h (List.mem_cons_of_mem c hm)
    rw [List.cons_append, splitNl, if_neg hc, ih hq]

theorem joinNl_cons_of_ne_nil (t : List Char) (ts : List (List Char)) (h : ts ≠ []) :
    joinNl (t :: ts) = t ++ '\n' :: joinNl ts := by
  cases ts with
  | nil => exact absurd rfl h
  | cons u us => rfl

theorem splitNl_joinNl_concat :
    ∀ ts : List (List Char), ts ≠ [] → (∀ t ∈ ts, '\n' ∉ t) →
      splitNl (joinNl ts ++ ['\n']) = ts ++ [[]] := by
  intro ts
  induction ts with
  | nil => intro h; exact absurd rfl h
  | cons t us ih =>
    intro _ hfree
    cases hus : us with
    | nil =>
      have ht : '\n' ∉ t := hfree t (List.mem_cons_self t us)
      show splitNl (joinNl [t] ++ ['\n']) = [t] ++ [[]]
      have : joinNl [t] = t := rfl
      rw [this]
      have : t ++ ['\n'] = t ++ '\n' :: [] := rfl
      rw [this, splitNl_append_cons t [] ht]
      rfl
    | cons v vs =>
      have ht : '\n' ∉ t := hfree t (List.mem_cons_self t us)
      have husne : us ≠ [] := by rw [hus]; simp
      have hfree' : ∀ x ∈ us, '\n' ∉ x := fun x hx => hfree x (List.mem_cons_of_mem t hx)
      rw [← hus]
      rw [joinNl_cons_of_ne_nil t us husne]
      have : (t ++ '\n' :: joinNl us) ++ ['\n'] = t ++ '\n' :: (joinNl us ++ ['\n']) := by
        simp
      rw [this, splitNl_append_cons t _ ht, ih husne hfree']
      rfl

theorem scanLines_joinNl_concat (ts : List (List Char)) (h : ts ≠ [])
    (hfree : ∀ t ∈ ts, '\n' ∉ t) :
    scanLines (joinNl ts ++ ['\n']) = ts.map dropCR := by
  have hne : joinNl ts ++ ['\n'] ≠ [] := by simp
  have hlast : (joinNl ts ++ ['\n']).getLast? = some '\n' := List.getLast?_concat _
  rw [scanLines, if_neg hne, hlast]
  simp only [if_pos rfl, reduceIte]
  rw [splitNl_joinNl_concat ts h hfree, List.dropLast_concat]

theorem dropCR_eq_self_of_no_cr (t : List Char) (h : '\r' ∉ t) : dropCR t = t := by
  rw [dropCR]
  by_cases hl : t.getLast? = some '\r'
  · exact absurd (List.mem_of_getLast?_eq_some hl) h
  · rw [if_neg hl]

theorem dropCR_chars_subset (t : List Char) : ∀ c ∈ dropCR t, c ∈ t := by
  intro c hc
  rw [dropCR] at hc
  by_cases hl : t.getLast? = some '\r'
  · rw [if_pos hl] at hc
    exact List.dropLast_subset t hc
  · rwa [if_neg hl] at hc

theorem mem_scanLines_no_nl (s t : List Char) (h : t ∈ scanLines s) : '\n' ∉ t := by
  rw [scanLines] at h
  by_cases hs : s = []
  · rw [if_pos hs] at h; simp at h
  · rw [if_neg hs] at h
    rcases List.mem_map.mp h with ⟨u, hu, hut⟩
    have humem : u ∈ splitNl s := by
      by_cases hl : s.getLast? = some '\n'
      · rw [if_pos hl] at hu
        exact List.dropLast_subset _ hu
      · rwa [if_neg hl] at hu
    intro hmem
    rw [← hut] at hmem
    exact splitNl_no_newline s u humem (dropCR_chars_subset u '\n' hmem)

theorem mem_scanLines_no_cr (s t : List Char) (hs : '\r' ∉ s) (h : t ∈ scanLines s) :
    '\r' ∉ t := by
  rw [scanLines] at h
  by_cases hnil : s = []
  · rw [if_pos hnil] at h; simp at h
  · rw [if_neg hnil] at h
    rcases List.mem_map.mp h with ⟨u, hu, hut⟩
    have humem : u ∈ splitNl s := by
      by_cases hl : s.getLast? = some '\n'
      · rw [if_pos hl] at hu
        exact List.dropLast_subset _ hu
      · rwa [if_neg hl] at hu
    intro hmem
    rw [← hut] at hmem
    exact hs (splitNl_chars_subset s u humem '\r' (dropCR_chars_subset u '\r' hmem))

/-! ## Claim theorems -/

/-- C1: the claim states that every return of `setupRemoteConfig` is
preceded by exactly one invocation of each checkpoint, including on the
no-password early return.  The code contradicts this (and deadlocks its own
caller `SetupSSH`, which waits on a channel fed only through the
checkpoints): on the no-password path the function returns right after the
host-key cleanup with zero checkpoint invocations, as this concrete
evaluation shows. -/
theorem setupRemoteConfig_noPassword_skipsCheckpoints :
    setupRemoteConfig ⟨true, true, true, true, []⟩
        ⟨"BitriseRunningVM", "1.2.3.4", "root", "22", none⟩ = ([Ev.removeHostKey], none)
    ∧ List.countP isCheckpointEv
        (setupRemoteConfig ⟨true, true, true, true, []⟩
          ⟨"BitriseRunningVM", "1.2.3.4", "root", "22", none⟩).1 = 0 := by
  decide

/-- C2: on the macOS branch, the key provisioning (`ensureClientKeyOnRemote`)
and the MOTD shell-config edit (`setupShellConfigs`) are both invoked
(once) strictly before the unique `onEssentialsDone` checkpoint, and the
README copy (`copyItemSFTP`) is invoked (once) strictly after it. -/
theorem setupRemoteConfig_macOS_ordering (w : RemoteWorld) (c : configEntry) (pw : String)
    (h1 : w.removeHostKeyOk = true) (h2 : c.Password = some pw)
    (h3 : w.dialOk = true) (h4 : w.envOk = true)
    (h5 : isMacOS (lookupD w.env osTypeEnvVar) = true) :
    ∃ A B sd, (setupRemoteConfig w c).1 = A ++ Ev.essentialsDone true sd :: B
      ∧ List.countP isEnsureKeyEv A = 1
      ∧ List.countP isShellCfgEv A = 1
      ∧ List.countP isCopySFTPEv A = 0
      ∧ List.countP isEssentialsEv A = 0
      ∧ List.countP isEssentialsEv B = 0
      ∧ List.countP isEnsureKeyEv B = 0
      ∧ List.countP isShellCfgEv B = 0
      ∧ List.countP isCopySFTPEv B = 1 := by
  refine ⟨[Ev.removeHostKey, Ev.dial c.User pw, Ev.detectEnv, Ev.remoteDetected true,
           Ev.ensureKey, Ev.shellConfigs ["~/.zshrc", "~/.bashrc"]],
          [Ev.copySFTP (joinPath (lookupD w.env sourceDirEnvVar) remoteReadmeFileName)],
          lookupD w.env sourceDirEnvVar, ?_, ?_, ?_, ?_, ?_, ?_, ?_, ?_, ?_⟩
  · rw [setupRemoteConfig, h1, h2]
    simp only [h3, h4, h5, Bool.true_eq_false, if_false, if_true, reduceIte]
    rfl
  all_goals
    simp [List.countP_cons, isEnsureKeyEv, isShellCfgEv, isCopySFTPEv, isEssentialsEv]

/-- C2 witness at a concrete macOS world. -/
theorem setupRemoteConfig_macOS_ordering_witness :
    isMacOS (lookupD [(osTypeEnvVar, "darwin21")] osTypeEnvVar) = true
    ∧ ∃ A B sd,
        (setupRemoteConfig ⟨true, true, true, true, [(osTypeEnvVar, "darwin21")]⟩
          ⟨"BitriseRunningVM", "1.2.3.4", "root", "22", some "pw"⟩).1
          = A ++ Ev.essentialsDone true sd :: B
        ∧ List.countP isEnsureKeyEv A = 1
        ∧ List.countP isShellCfgEv A = 1
        ∧ List.countP isCopySFTPEv A = 0
        ∧ List.countP isEssentialsEv A = 0
        ∧ List.countP isEssentialsEv B = 0
        ∧ List.countP isEnsureKeyEv B = 0
        ∧ List.countP isShellCfgEv B = 0
        ∧ List.countP isCopySFTPEv B = 1 :=
  ⟨by decide,
   setupRemoteConfig_macOS_ordering
     ⟨true, true, true, true, [(osTypeEnvVar, "darwin21")]⟩
     ⟨"BitriseRunningVM", "1.2.3.4", "root", "22", some "pw"⟩ "pw"
     rfl rfl rfl rfl (by decide)⟩

/-- C3: with no password in the descriptor, the synchronous bootstrap
`SetupRemoteConfig` performs only the host-key cleanup and returns
immediately with outcome `useIdentityKeyAuth = false`,
`sourceDirectory = ""` and no error; no dial and no remote command
execution appears in the trace. -/
theorem SetupRemoteConfig_noPassword (w : RemoteWorld) (c : configEntry)
    (h1 : c.Password = none) (h2 : w.removeHostKeyOk = true) :
    SetupRemoteConfig w c = ([Ev.removeHostKey], (false, ""), none)
    ∧ List.countP isDialEv (SetupRemoteConfig w c).1 = 0
    ∧ Ev.detectEnv ∉ (SetupRemoteConfig w c).1 := by
  have he : SetupRemoteConfig w c = ([Ev.removeHostKey], (false, ""), none) := by
    rw [SetupRemoteConfig, h2, h1]
    simp
  refine ⟨he, ?_, ?_⟩
  · rw [he]; decide
  · rw [he]; decide

/-- C3 witness. -/
theorem SetupRemoteConfig_noPassword_witness :
    SetupRemoteConfig ⟨true, false, false, false, []⟩
        ⟨"BitriseRunningVM", "10.0.0.5", "admin", "2222", none⟩
      = ([Ev.removeHostKey], (false, ""), none) :=
  (SetupRemoteConfig_noPassword ⟨true, false, false, false, []⟩
    ⟨"BitriseRunningVM", "10.0.0.5", "admin", "2222", none⟩ rfl rfl).1

/-- C4 counterexample: an `OSTYPE` containing both `"darwin"` and
`"linux-gnu"` takes the macOS branch, so with an empty detected source
directory the outcome's source directory is `""`, not `"/bitrise/src"`,
refuting the claim's Linux conditional as stated. -/
theorem setupRemoteConfig_linux_claim_cex :
    goContains "darwin linux-gnu" "linux-gnu" = true
    ∧ lookupD [(osTypeEnvVar, "darwin linux-gnu")] sourceDirEnvVar = ""
    ∧ Ev.essentialsDone false "/bitrise/src"
        ∉ (setupRemoteConfig ⟨true, true, true, true, [(osTypeEnvVar, "darwin linux-gnu")]⟩
            ⟨"BitriseRunningVM", "1.2.3.4", "root", "22", some "pw"⟩).1
    ∧ Ev.essentialsDone true "/bitrise/src"
        ∉ (setupRemoteConfig ⟨true, true, true, true, [(osTypeEnvVar, "darwin linux-gnu")]⟩
            ⟨"BitriseRunningVM", "1.2.3.4", "root", "22", some "pw"⟩).1
    ∧ Ev.essentialsDone true ""
        ∈ (setupRemoteConfig ⟨true, true, true, true, [(osTypeEnvVar, "darwin linux-gnu")]⟩
            ⟨"BitriseRunningVM", "1.2.3.4", "root", "22", some "pw"⟩).1 := by
  decide

/-- C4 (amended): on executions reaching OS branching, an `osType`
containing `"darwin"` yields outcome `useIdentityKeyAuth = true`; an
`osType` containing `"linux-gnu"` *and not containing `"darwin"`* (darwin
is checked first) with an empty detected source directory yields
`sourceDirectory = "/bitrise/src"`, and keeps a non-empty detected source
directory unchanged. -/
theorem setupRemoteConfig_osBranching (w : RemoteWorld) (c : configEntry) (pw : String)
    (h1 : w.removeHostKeyOk = true) (h2 : c.Password = some pw)
    (h3 : w.dialOk = true) (h4 : w.envOk = true) :
    (isMacOS (lookupD w.env osTypeEnvVar) = true →
       Ev.remoteDetected true ∈ (setupRemoteConfig w c).1
       ∧ Ev.essentialsDone true (lookupD w.env sourceDirEnvVar) ∈ (setupRemoteConfig w c).1)
    ∧ (isMacOS (lookupD w.env osTypeEnvVar) = false →
       isLinux (lookupD w.env osTypeEnvVar) = true →
       lookupD w.env sourceDirEnvVar = "" →
       Ev.essentialsDone false "/bitrise/src" ∈ (setupRemoteConfig w c).1)
    ∧ (isMacOS (lookupD w.env osTypeEnvVar) = false →
       isLinux (lookupD w.env osTypeEnvVar) = true →
       lookupD w.env sourceDirEnvVar ≠ "" →
       Ev.essentialsDone false (lookupD w.env sourceDirEnvVar) ∈ (setupRemoteConfig w c).1) := by
  refine ⟨?_, ?_, ?_⟩
  · intro h5
    rw [setupRemoteConfig, h1, h2]
    simp [h3, h4, h5]
  · intro h5 h6 h7
    rw [setupRemoteConfig, h1, h2]
    simp [h3, h4, h5, h6, h7]
  · intro h5 h6 h7
    rw [setupRemoteConfig, h1, h2]
    simp [h3, h4, h5, h6, h7]

/-- C4 witness: the darwin conjunct at a macOS world and both Linux
conjuncts at Linux worlds. -/
theorem setupRemoteConfig_osBranching_witness :
    (Ev.essentialsDone true "/src"
      ∈ (setupRemoteConfig ⟨true, true, true, true,
          [(osTypeEnvVar, "darwin21"), (sourceDirEnvVar, "/src")]⟩
          ⟨"BitriseRunningVM", "1.2.3.4", "root", "22", some "pw"⟩).1)
    ∧ (Ev.essentialsDone false "/bitrise/src"
      ∈ (setupRemoteConfig ⟨true, true, true, true, [(osTypeEnvVar, "linux-gnu")]⟩
          ⟨"BitriseRunningVM", "1.2.3.4", "root", "22", some "pw"⟩).1)
    ∧ (Ev.essentialsDone false "/work"
      ∈ (setupRemoteConfig ⟨true, true, true, true,
          [(osTypeEnvVar, "linux-gnu"), (sourceDirEnvVar, "/work")]⟩
          ⟨"BitriseRunningVM", "1.2.3.4", "root", "22", some "pw"⟩).1) := by
  refine ⟨?_, ?_, ?_⟩
  · have h := (setupRemoteConfig_osBranching
      ⟨true, true, true, true, [(osTypeEnvVar, "darwin21"), (sourceDirEnvVar, "/src")]⟩
      ⟨"BitriseRunningVM", "1.2.3.4", "root", "22", some "pw"⟩ "pw"
      rfl rfl rfl rfl).1 (by decide)
    have hsd : lookupD [(osTypeEnvVar, "darwin21"), (sourceDirEnvVar, "/src")] sourceDirEnvVar
        = "/src" := by decide
    exact hsd ▸ h.2
  · exact (setupRemoteConfig_osBranching
      ⟨true, true, true, true, [(osTypeEnvVar, "linux-gnu")]⟩
      ⟨"BitriseRunningVM", "1.2.3.4", "root", "22", some "pw"⟩ "pw"
      rfl rfl rfl rfl).2.1 (by decide) (by decide) (by decide)
  · have h := (setupRemoteConfig_osBranching
      ⟨true, true, true, true, [(osTypeEnvVar, "linux-gnu"), (sourceDirEnvVar, "/work")]⟩
      ⟨"BitriseRunningVM", "1.2.3.4", "root", "22", some "pw"⟩ "pw"
      rfl rfl rfl rfl).2.2 (by decide) (by decide) (by decide)
    have hsd : lookupD [(osTypeEnvVar, "linux-gnu"), (sourceDirEnvVar, "/work")] sourceDirEnvVar
        = "/work" := by decide
    exact hsd ▸ h

/-- C10: the no-auth shortcut is decided by credential presence, not
value: with a present-but-empty password (after successful host-key
cleanup) the bootstrap proceeds to dial with the empty password, whereas
with an absent password no dial event ever occurs. -/
theorem setupRemoteConfig_passwordPresence (w : RemoteWorld) (c : configEntry) :
    (c.Password = some "" → w.removeHostKeyOk = true →
       Ev.dial c.User "" ∈ (setupRemoteConfig w c).1
       ∧ (setupRemoteConfig w c).1 ≠ [Ev.removeHostKey])
    ∧ (c.Password = none → ∀ u p, Ev.dial u p ∉ (setupRemoteConfig w c).1) := by
  constructor
  · intro h2 h1
    rw [setupRemoteConfig, h1, h2]
    by_cases h3 : w.dialOk = false
    · simp [h3]
    · rw [Bool.not_eq_false] at h3
      by_cases h4 : w.envOk = false
      · simp [h3, h4]
      · rw [Bool.not_eq_false] at h4
        by_cases h5 : isMacOS (lookupD w.env osTypeEnvVar) = true
        · simp [h3, h4, h5]
        · by_cases h6 : isLinux (lookupD w.env osTypeEnvVar) = true
          · simp [h3, h4, h5, h6]
          · simp [h3, h4, h5, h6]
  · intro h2 u p
    rw [setupRemoteConfig]
    by_cases h1 : w.removeHostKeyOk = false
    · simp [h1]
    · rw [Bool.not_eq_false] at h1
      rw [h2]
      simp [h1]

/-- C10 witness: an explicitly empty password dials with `""`; an absent
password never dials. -/
theorem setupRemoteConfig_passwordPresence_witness :
    (Ev.dial "root" "" ∈ (setupRemoteConfig ⟨true, true, true, true, []⟩
        ⟨"BitriseRunningVM", "1.2.3.4", "root", "22", some ""⟩).1)
    ∧ Ev.dial "root" "" ∉ (setupRemoteConfig ⟨true, true, true, true, []⟩
        ⟨"BitriseRunningVM", "1.2.3.4", "root", "22", none⟩).1 :=
  ⟨((setupRemoteConfig_passwordPresence ⟨true, true, true, true, []⟩
      ⟨"BitriseRunningVM", "1.2.3.4", "root", "22", some ""⟩).1 rfl rfl).1,
   (setupRemoteConfig_passwordPresence ⟨true, true, true, true, []⟩
      ⟨"BitriseRunningVM", "1.2.3.4", "root", "22", none⟩).2 rfl "root" ""⟩

/-- C9 counterexample: in `makeSSHConfigHost` (part_004) the
`IdentitiesOnly yes` node is appended unconditionally, so it is present
even when `useIdentityKey` is false — refuting "the identities-only flag
exactly when useIdentityKey is true". -/
theorem makeSSHConfigHost_identitiesOnly_cex :
    ("  IdentitiesOnly", "yes")
      ∈ makeSSHConfigHost ⟨"BitriseRunningVM", "1.2.3.4", "root", "22", none⟩ false
    ∧ ¬ (∀ (c : configEntry) (u : Bool),
          (("  IdentitiesOnly", "yes") ∈ makeSSHConfigHost c u) ↔ u = true) := by
  constructor
  · decide
  · intro h
    have := (h ⟨"BitriseRunningVM", "1.2.3.4", "root", "22", none⟩ false).mp (by decide)
    simp at this

/-- C9 (amended): after any two successive `writeSSHClientConfig` calls the
managed file holds exactly one host block, the latest call's; the block
carries the connection parameters, the identity-file reference exactly when
`useIdentityKey` is true, a preferred-authentications password hint exactly
when it is false, and the identities-only flag always. -/
theorem writeSSHClientConfig_overwrite (prior : Option (List SSHHostBlock))
    (c1 : configEntry) (u1 : Bool) (c2 : configEntry) (u2 : Bool) :
    writeSSHClientConfig (some (writeSSHClientConfig prior c1 u1)) c2 u2
      = [makeSSHConfigHostBlock c2 u2]
    ∧ (writeSSHClientConfig (some (writeSSHClientConfig prior c1 u1)) c2 u2).length = 1
    ∧ (makeSSHConfigHostBlock c2 u2).pattern = c2.Host ++ " "
    ∧ ("  HostName", c2.HostName) ∈ (makeSSHConfigHostBlock c2 u2).nodes
    ∧ ("  User", c2.User) ∈ (makeSSHConfigHostBlock c2 u2).nodes
    ∧ ("  Port", c2.Port) ∈ (makeSSHConfigHostBlock c2 u2).nodes
    ∧ ("  IdentitiesOnly", "yes") ∈ (makeSSHConfigHostBlock c2 u2).nodes
    ∧ ((("  IdentityFile", "~/.ssh/" ++ sshKeyName) ∈ (makeSSHConfigHostBlock c2 u2).nodes)
        ↔ u2 = true)
    ∧ ((("  PreferredAuthentications", "password") ∈ (makeSSHConfigHostBlock c2 u2).nodes)
        ↔ u2 = false) := by
  refine ⟨rfl, rfl, rfl, ?_⟩
  cases u2 <;>
    simp [makeSSHConfigHostBlock, makeSSHConfigHost, sshKeyName]

/-- C7 (amended): a write to an existing file with `Append = false` fails
with the distinguished remote-file-exists error; an appending write with
`NoDuplicate = true` whose content is already a substring of the file fails
with the already-contains condition; both failures leave the remote
filesystem unchanged.  Repeating a successful `NoDuplicate` write is
idempotent *provided the placeholder substitution leaves the content
unchanged* (in particular when no substitutions are given): the second
identical write fails and leaves the file as it was.  (The duplicate check
compares the raw content while the write stores the substituted content,
so a content-altering substitution breaks the idempotence — see the
counterexample.) -/
theorem copyItemSFTP_spec :
    (∀ (fs : RemoteFS) (item : copyItem) (cont : List Char),
        fsGet fs item.RemotePath = some cont → item.Append = false →
        copyItemSFTP fs item = (some CopyErr.remoteFileExists, fs))
    ∧ (∀ (fs : RemoteFS) (item : copyItem) (cont : List Char),
        fsGet fs item.RemotePath = some cont → item.Append = true →
        item.NoDuplicate = true → containsSub cont item.Content = true →
        copyItemSFTP fs item = (some CopyErr.contentAlreadyPresent, fs))
    ∧ (∀ (fs : RemoteFS) (item : copyItem) (fs1 : RemoteFS),
        item.NoDuplicate = true → substContent item = item.Content →
        copyItemSFTP fs item = (none, fs1) →
        ∃ e, copyItemSFTP fs1 item = (some e, fs1)) := by
  refine ⟨?_, ?_, ?_⟩
  · intro fs item cont hget happ
    simp only [copyItemSFTP, fileExistsSFTP, hget, happ]
    simp
  · intro fs item cont hget happ hnd hcontains
    simp only [copyItemSFTP, fileExistsSFTP, hget, happ, hnd, hcontains]
    simp
  · intro fs item fs1 hnd hsub hsucc
    cases hget : fsGet fs item.RemotePath with
    | none =>
      have hfs1 : fs1 = fsSet fs item.RemotePath item.Content := by
        simp only [copyItemSFTP, fileExistsSFTP, hget, hsub] at hsucc
        simp at hsucc
        exact hsucc.symm
      have hget1 : fsGet fs1 item.RemotePath = some item.Content := by
        rw [hfs1, fsGet, fsSet, lookupA]
        simp
      cases happ : item.Append with
      | false =>
        exact ⟨CopyErr.remoteFileExists, by
          simp only [copyItemSFTP, fileExistsSFTP, hget1, happ]
          simp⟩
      | true =>
        exact ⟨CopyErr.contentAlreadyPresent, by
          simp only [copyItemSFTP, fileExistsSFTP, hget1, happ, hnd,
            containsSub_self item.Content]
          simp⟩
    | some old =>
      cases happ : item.Append with
      | false =>
        exfalso
        simp only [copyItemSFTP, fileExistsSFTP, hget, happ] at hsucc
        simp at hsucc
      | true =>
        have hnodup : containsSub old item.Content = false := by
          by_contra hc
          rw [Bool.not_eq_false] at hc
          simp only [copyItemSFTP, fileExistsSFTP, hget, happ, hnd, hc] at hsucc
          simp at hsucc
        have hfs1 : fs1 = fsSet fs item.RemotePath (old ++ item.Content) := by
          simp only [copyItemSFTP, fileExistsSFTP, hget, happ, hnd, hnodup, hsub] at hsucc
          simp at hsucc
          rw [← hsucc]
        have hget1 : fsGet fs1 item.RemotePath = some (old ++ item.Content) := by
          rw [hfs1, fsGet, fsSet, lookupA]
          simp
        exact ⟨CopyErr.contentAlreadyPresent, by
          simp only [copyItemSFTP, fileExistsSFTP, hget1, happ, hnd,
            containsSub_append_self old item.Content]
          simp⟩

/-- C7 witness: writing a key line twice into an absent
`authorized_keys`-style target — the first call creates the file, the
second fails and leaves it untouched. -/
theorem copyItemSFTP_spec_witness :
    copyItemSFTP [] ⟨"ssh-ed25519 AAA key".data, ".ssh/authorized_keys", none, true, true⟩
      = (none, [(".ssh/authorized_keys", "ssh-ed25519 AAA key".data)])
    ∧ ∃ e, copyItemSFTP [(".ssh/authorized_keys", "ssh-ed25519 AAA key".data)]
        ⟨"ssh-ed25519 AAA key".data, ".ssh/authorized_keys", none, true, true⟩
        = (some e, [(".ssh/authorized_keys", "ssh-ed25519 AAA key".data)]) := by
  have hfirst : copyItemSFTP []
      ⟨"ssh-ed25519 AAA key".data, ".ssh/authorized_keys", none, true, true⟩
      = (none, [(".ssh/authorized_keys", "ssh-ed25519 AAA key".data)]) := by decide
  exact ⟨hfirst,
    copyItemSFTP_spec.2.2 []
      ⟨"ssh-ed25519 AAA key".data, ".ssh/authorized_keys", none, true, true⟩
      [(".ssh/authorized_keys", "ssh-ed25519 AAA key".data)] rfl rfl hfirst⟩

/-- C5: the validator succeeds exactly when host, port and user are
non-empty, the host is a literal IP or resolves, and the port parses as an
integer in (0, 65535]; on success the descriptor carries the inputs
unchanged and the managed alias as `Host`. -/
theorem createClientConfig_spec (ipLit resolvesHost : String → Bool)
    (host port user : String) (password : Option String) :
    ((∃ e, createClientConfig ipLit resolvesHost host port user password = Except.ok e)
      ↔ ¬(host = "" ∨ port = "" ∨ user = ""
          ∨ (ipLit host = false ∧ resolvesHost host = false)
          ∨ ¬∃ p : Int, goAtoi port = some p ∧ 0 < p ∧ p ≤ 65535))
    ∧ ∀ e, createClientConfig ipLit resolvesHost host port user password = Except.ok e →
        e.Host = BitriseHostPattern ∧ e.HostName = host ∧ e.User = user
        ∧ e.Port = port ∧ e.Password = password := by
  constructor
  · rw [createClientConfig]
    by_cases h1 : host = ""
    · simp [h1]
    · by_cases h2 : port = ""
      · simp [h1, h2]
      · by_cases h3 : user = ""
        · simp [h1, h2, h3]
        · by_cases h4 : ipLit host = false ∧ resolvesHost host = false
          · simp [h1, h2, h3, h4]
          · cases hA : goAtoi port with
            | none => simp [h1, h2, h3, h4, hA]
            | some p =>
              by_cases hp : p ≤ 0 ∨ 65535 < p
              · simp only [h1, h2, h3, h4, hA, hp, if_pos, if_neg, if_true, if_false,
                  not_false_eq_true, reduceIte]
                constructor
                · intro ⟨e, he⟩
                  simp at he
                · intro hr
                  exfalso
                  apply hr
                  refine Or.inr (Or.inr (Or.inr (Or.inr ?_)))
                  rintro ⟨q, hq, hq1, hq2⟩
                  have hqp : p = q := Option.some.inj hq
                  omega
              · simp only [h1, h2, h3, h4, hA, hp, if_pos, if_neg, if_true, if_false,
                  not_false_eq_true, reduceIte]
                constructor
                · intro _
                  simp only [false_or]
                  intro hcon
                  exact hcon ⟨p, rfl, by omega, by omega⟩
                · intro _
                  exact ⟨_, rfl⟩
  · intro e he
    rw [createClientConfig] at he
    by_cases h1 : host = "" <;> simp [h1] at he
    by_cases h2 : port = "" <;> simp [h2] at he
    by_cases h3 : user = "" <;> simp [h3] at he
    by_cases h4 : ipLit host = false ∧ resolvesHost host = false <;> simp [h4] at he
    cases hA : goAtoi port with
    | none => rw [hA] at he; simp at he
    | some p =>
      rw [hA] at he
      by_cases hp : p ≤ 0 ∨ 65535 < p <;> simp [hp] at he
      rw [← he]
      exact ⟨rfl, rfl, rfl, rfl, rfl⟩

/-- C5 witness: a concrete valid input yields a descriptor with the
managed alias and the input fields. -/
theorem createClientConfig_spec_witness :
    ∃ e, createClientConfig (fun _ => true) (fun _ => false) "1.2.3.4" "22" "root" (some "pw")
        = Except.ok e
      ∧ e.Host = BitriseHostPattern ∧ e.HostName = "1.2.3.4" ∧ e.User = "root"
      ∧ e.Port = "22" ∧ e.Password = some "pw" := by
  have h := createClientConfig_spec (fun _ => true) (fun _ => false)
    "1.2.3.4" "22" "root" (some "pw")
  rcases h.1.mpr (by
    intro hor
    rcases hor with h | h | h | h | h
    · exact absurd h (by decide)
    · exact absurd h (by decide)
    · exact absurd h (by decide)
    · exact absurd h.1 (by decide)
    · exact h ⟨22, by decide, by decide, by decide⟩) with ⟨e, he⟩
  exact ⟨e, he, h.2 e he⟩

/-- C6: the frame for index `i` is extracted by locating the last
occurrence of `[result<i>=` and taking the characters up to the next `]`;
and on the concrete transcript for `["echo A", "echo B"]` (prefix `""`,
result-wanting mode) — which contains earlier echoed partial matches — the
returned mapping gives `"A"` and `"B"` for the two commands. -/
theorem runWithPty_resultExtraction :
    (∀ (i : Nat) (pre val post : List Char),
        strLastIndex? (pre ++ resultTag i ++ val ++ ']' :: post) (resultTag i)
          = some pre.length →
        ']' ∉ val →
        extractResult (pre ++ resultTag i ++ val ++ ']' :: post) i = some val)
    ∧ mapGet (buildResultMap concreteOutput [cmdEchoA, cmdEchoB]) cmdEchoA = some ['A']
    ∧ mapGet (buildResultMap concreteOutput [cmdEchoA, cmdEchoB]) cmdEchoB = some ['B'] := by
  refine ⟨?_, by decide, by decide⟩
  intro i pre val post hlast hval
  simp only [extractResult, hlast]
  have hassoc : pre ++ resultTag i ++ val ++ ']' :: post
      = (pre ++ resultTag i) ++ (val ++ ']' :: post) := by
    simp [List.append_assoc]
  have hdrop : (pre ++ resultTag i ++ val ++ ']' :: post).drop
      (pre.length + (resultTag i).length) = val ++ ']' :: post := by
    rw [hassoc, List.drop_left' (by simp)]
  rw [hdrop, strIndex?_char_notMem ']' val post hval]
  simp [List.take_left]

/-- C6 witness: the general extraction theorem applied to the concrete
transcript, whose echoed command text contains an earlier occurrence of
the frame marker. -/
theorem runWithPty_resultExtraction_witness :
    strLastIndex? concreteOutput (resultTag 0)
      = some (sentInput [cmdEchoA, cmdEchoB] [] true ++ "\r\n".data).length
    ∧ extractResult concreteOutput 0 = some ['A'] := by
  have hdec : concreteOutput
      = (sentInput [cmdEchoA, cmdEchoB] [] true ++ "\r\n".data)
        ++ resultTag 0 ++ ['A'] ++ ']' :: "\r\n[result1=B]\r\n".data := by decide
  constructor
  · decide
  · rw [hdec]
    exact runWithPty_resultExtraction.1 0 _ ['A'] _ (by decide) (by decide)

theorem includeLine_cons (home : List Char) :
    includeLine home = 'I' :: ("nclude ".data ++ bitriseConfigPath home) := rfl

theorem includeLine_no_nl (home : List Char) (hnl : '\n' ∉ home) :
    '\n' ∉ includeLine home := by
  intro hmem
  rw [includeLine, bitriseConfigPath] at hmem
  rcases List.mem_append.mp hmem with h | h
  · exact absurd h (by decide)
  · rcases List.mem_append.mp h with h2 | h2
    · exact hnl h2
    · exact absurd h2 (by decide)

theorem dropCR_includeLine (home : List Char) :
    dropCR (includeLine home) = includeLine home := by
  have hlast : (includeLine home).getLast? = some 'g' := by
    rw [includeLine, bitriseConfigPath]
    rw [List.getLast?_append_of_ne_nil _ (by simp)]
    rw [List.getLast?_append_of_ne_nil _ (by decide)]
    decide
  rw [dropCR, hlast]
  simp

theorem descLine1_ne_includeLine (home : List Char) :
    "# Added by Bitrise".data ≠ includeLine home := by
  intro h
  have hh := congrArg List.head? h
  rw [includeLine_cons] at hh
  simp at hh

theorem descLine2_ne_includeLine (home : List Char) :
    "# This will be added again if you remove it.".data ≠ includeLine home := by
  intro h
  have hh := congrArg List.head? h
  rw [includeLine_cons] at hh
  simp at hh

theorem scanLines_ensure_added (home : List Char) (hnl : '\n' ∉ home)
    (content : List Char) (hmem : includeLine home ∉ scanLines content) :
    scanLines (ensureBitriseClientConfigIncluded home (some content))
      = "# Added by Bitrise".data
        :: "# This will be added again if you remove it.".data
        :: includeLine home :: (scanLines content).map dropCR := by
  rw [ensureBitriseClientConfigIncluded, if_neg hmem]
  have hL : ∀ t ∈ scanLines content, '\n' ∉ t :=
    fun t ht => mem_scanLines_no_nl content t ht
  have hjoin : joinNl ([bitriseDescription, includeLine home] ++ scanLines content)
      = joinNl ("# Added by Bitrise".data
          :: "# This will be added again if you remove it.".data
          :: includeLine home :: scanLines content) := by
    have h1 : joinNl (bitriseDescription :: includeLine home :: scanLines content)
        = bitriseDescription ++ '\n' :: joinNl (includeLine home :: scanLines content) :=
      joinNl_cons_of_ne_nil _ _ (by simp)
    have h2 : joinNl ("# This will be added again if you remove it.".data
          :: includeLine home :: scanLines content)
        = "# This will be added again if you remove it.".data
            ++ '\n' :: joinNl (includeLine home :: scanLines content) :=
      joinNl_cons_of_ne_nil _ _ (by simp)
    have h3 : joinNl ("# Added by Bitrise".data
          :: "# This will be added again if you remove it.".data
          :: includeLine home :: scanLines content)
        = "# Added by Bitrise".data
            ++ '\n' :: joinNl ("# This will be added again if you remove it.".data
              :: includeLine home :: scanLines content) :=
      joinNl_cons_of_ne_nil _ _ (by simp)
    have hd : bitriseDescription
        = "# Added by Bitrise".data
            ++ '\n' :: "# This will be added again if you remove it.".data := by decide
    simp only [List.cons_append, List.nil_append]
    rw [h1, h3, h2, hd]
    simp
  rw [hjoin]
  have hts : ∀ t ∈ ("# Added by Bitrise".data
      :: "# This will be added again if you remove it.".data
      :: includeLine home :: scanLines content), '\n' ∉ t := by
    intro t ht
    rcases List.mem_cons.mp ht with h | h
    · subst h; decide
    · rcases List.mem_cons.mp h with h | h
      · subst h; decide
      · rcases List.mem_cons.mp h with h | h
        · subst h; exact includeLine_no_nl home hnl
        · exact hL t h
  rw [scanLines_joinNl_concat _ (by simp) hts]
  simp only [List.map_cons]
  rw [dropCR_includeLine home]
  have hdc1 : dropCR "# Added by Bitrise".data = "# Added by Bitrise".data := by decide
  have hdc2 : dropCR "# This will be added again if you remove it.".data
      = "# This will be added again if you remove it.".data := by decide
  rw [hdc1, hdc2]

/-- C8 counterexample: a primary config that already contains the include
line twice is left untouched by the editor, so calling it twice does not
yield exactly one occurrence — the claim fails for this initial state. -/
theorem ensureBitriseClientConfigIncluded_cex :
    List.count (includeLine "/h".data)
      (scanLines (ensureBitriseClientConfigIncluded "/h".data
        (some (ensureBitriseClientConfigIncluded "/h".data
          (some (includeLine "/h".data ++ '\n' :: (includeLine "/h".data ++ ['\n']))))))) = 2
    ∧ ¬ List.count (includeLine "/h".data)
      (scanLines (ensureBitriseClientConfigIncluded "/h".data
        (some (ensureBitriseClientConfigIncluded "/h".data
          (some (includeLine "/h".data ++ '\n' :: (includeLine "/h".data ++ ['\n']))))))) = 1 := by
  constructor
  · decide
  · decide

/-- C8 (amended): for a newline/CR-free home path, `ensureInclude` is
idempotent in the functional sense — the second call is a no-op and the
include line is present as a scanned line after any call; when the initial
file contains the include line at most once (and no carriage returns) the
result contains it exactly once; and when the line is added it is
prepended, together with the two comment lines, before all pre-existing
content. -/
theorem ensureBitriseClientConfigIncluded_spec (home : List Char)
    (hnl : '\n' ∉ home) :
    (∀ st : Option (List Char),
        ensureBitriseClientConfigIncluded home
            (some (ensureBitriseClientConfigIncluded home st))
          = ensureBitriseClientConfigIncluded home st
        ∧ includeLine home ∈ scanLines (ensureBitriseClientConfigIncluded home st))
    ∧ (∀ content : List Char, '\r' ∉ content →
        List.count (includeLine home) (scanLines content) ≤ 1 →
        List.count (includeLine home)
          (scanLines (ensureBitriseClientConfigIncluded home (some content))) = 1)
    ∧ (∀ content : List Char, includeLine home ∉ scanLines content →
        scanLines (ensureBitriseClientConfigIncluded home (some content))
          = "# Added by Bitrise".data
            :: "# This will be added again if you remove it.".data
            :: includeLine home :: (scanLines content).map dropCR) := by
  have hscan_none : scanLines (includeLine home ++ ['\n']) = [includeLine home] := by
    have h := scanLines_joinNl_concat [includeLine home] (by simp)
      (by intro t ht; simp at ht; subst ht; exact includeLine_no_nl home hnl)
    simp only [joinNl, List.map_cons, List.map_nil] at h
    rw [h, dropCR_includeLine home]
  have hmem_any : ∀ st : Option (List Char),
      includeLine home ∈ scanLines (ensureBitriseClientConfigIncluded home st) := by
    intro st
    match st with
    | none =>
      rw [ensureBitriseClientConfigIncluded, hscan_none]
      simp
    | some content =>
      by_cases hmem : includeLine home ∈ scanLines content
      · rw [ensureBitriseClientConfigIncluded, if_pos hmem]
        exact hmem
      · rw [scanLines_ensure_added home hnl content hmem]
        simp
  refine ⟨?_, ?_, ?_⟩
  · intro st
    refine ⟨?_, hmem_any st⟩
    conv in ensureBitriseClientConfigIncluded home
        (some (ensureBitriseClientConfigIncluded home st)) =>
      rw [ensureBitriseClientConfigIncluded]
    rw [if_pos (hmem_any st)]
  · intro content hcrc hcount
    by_cases hmem : includeLine home ∈ scanLines content
    · rw [ensureBitriseClientConfigIncluded, if_pos hmem]
      have hpos : 0 < List.count (includeLine home) (scanLines content) :=
        List.count_pos_iff.mpr hmem
      omega
    · rw [scanLines_ensure_added home hnl content hmem]
      have hmap : (scanLines content).map dropCR = scanLines content := by
        rw [List.map_congr_left
          (fun t ht => dropCR_eq_self_of_no_cr t (mem_scanLines_no_cr content t hcrc ht))]
        exact List.map_id _
      rw [hmap]
      rw [List.count_cons, List.count_cons, List.count_cons]
      have h0 : List.count (includeLine home) (scanLines content) = 0 :=
        List.count_eq_zero.mpr hmem
      rw [h0]
      simp [descLine1_ne_includeLine home, descLine2_ne_includeLine home,
        Ne.symm (descLine1_ne_includeLine home), Ne.symm (descLine2_ne_includeLine home)]
  · intro content hmem
    exact scanLines_ensure_added home hnl content hmem

/-- C8 witness: the amended properties evaluated at a concrete home and a
concrete include-free config file. -/
theorem ensureBitriseClientConfigIncluded_spec_witness :
    (ensureBitriseClientConfigIncluded "/h".data
        (some (ensureBitriseClientConfigIncluded "/h".data (some "Host x\n  Port 2\n".data)))
      = ensureBitriseClientConfigIncluded "/h".data (some "Host x\n  Port 2\n".data))
    ∧ List.count (includeLine "/h".data)
        (scanLines (ensureBitriseClientConfigIncluded "/h".data
          (some "Host x\n  Port 2\n".data))) = 1 := by
  have h := ensureBitriseClientConfigIncluded_spec "/h".data (by decide)
  exact ⟨(h.1 (some "Host x\n  Port 2\n".data)).1,
    h.2.1 "Host x\n  Port 2\n".data (by decide) (by decide)⟩

/-- C9 witness: two successive writes with different descriptors and modes
leave exactly the second descriptor's block, with the password hint
present in non-identity mode. -/
theorem writeSSHClientConfig_overwrite_witness :
    writeSSHClientConfig
        (some (writeSSHClientConfig none
          ⟨"BitriseRunningVM", "1.2.3.4", "root", "22", none⟩ true))
        ⟨"BitriseRunningVM", "5.6.7.8", "admin", "2200", none⟩ false
      = [makeSSHConfigHostBlock ⟨"BitriseRunningVM", "5.6.7.8", "admin", "2200", none⟩ false]
    ∧ ("  PreferredAuthentications", "password")
        ∈ (makeSSHConfigHostBlock
            ⟨"BitriseRunningVM", "5.6.7.8", "admin", "2200", none⟩ false).nodes := by
  have h := writeSSHClientConfig_overwrite none
    ⟨"BitriseRunningVM", "1.2.3.4", "root", "22", none⟩ true
    ⟨"BitriseRunningVM", "5.6.7.8", "admin", "2200", none⟩ false
  exact ⟨h.1, h.2.2.2.2.2.2.2.2.mpr rfl⟩

/-- C7 counterexample: for an appending `NoDuplicate` item whose `Replace`
map alters the content (`Content = "X$V"`, substitution `$V -> Y`), the
first write stores the substituted `"XY"`, and the second identical write
does *not* fail — the duplicate check compares the raw `"X$V"` against the
file — so it appends again, changing the remote content to `"XYXY"`:
a second identical write is not idempotent as the claim states. -/
theorem copyItemSFTP_substitution_cex :
    (copyItemSFTP [] ⟨"X$V".data, "p", some [("$V", "Y")], true, true⟩).2
      = [("p", "XY".data)]
    ∧ (copyItemSFTP [("p", "XY".data)]
        ⟨"X$V".data, "p", some [("$V", "Y")], true, true⟩).1 = none
    ∧ fsGet (copyItemSFTP [("p", "XY".data)]
        ⟨"X$V".data, "p", some [("$V", "Y")], true, true⟩).2 "p"
      = some ("XY".data ++ "XY".data)
    ∧ some ("XY".data ++ "XY".data) ≠ some "XY".data := by
  have hsub : substContent ⟨"X$V".data, "p", some [("$V", "Y")], true, true⟩
      = "XY".data := by
    simp only [substContent, List.foldl_cons, List.foldl_nil]
    simp [replaceAll]
  have hc : containsSub "XY".data "X$V".data = false := by decide
  refine ⟨?_, ?_, ?_, by decide⟩
  · simp [copyItemSFTP, fileExistsSFTP, fsGet, lookupA, fsSet, hsub]
  · simp [copyItemSFTP, fileExistsSFTP, fsGet, lookupA, fsSet, hsub, hc]
  · simp [copyItemSFTP, fileExistsSFTP, fsGet, lookupA, fsSet, hsub, hc]
